import Mathlib

/-!
Verification development for the WhatsApp duplicate-message bot
(`bot.js`, `unnamed/part_000`, `backup/bot.js`).

Shallow embedding conventions:
* Instants are `Int` milliseconds since the Unix epoch (JS `Date.getTime()`).
* Timezones are fixed UTC offsets in milliseconds, passed explicitly
  (`izOff` models the offset of `Asia/Jerusalem` at the relevant instant,
  `procOff` the offset of the process-local zone used by the zone-less
  `new Date(y, m, d, ...)` constructor).
* JS strings are Lean `String`; the handful of string operations the bot
  uses (`trim`, `toLowerCase`, `split(/\s+/)`) are re-implemented over
  `String.data` so that they evaluate inside `decide`.
* The JS `Map` backing the history table is a `List (String × List Int)`
  in insertion order; `Map.get`, `Map.set` and deletion-during-iteration
  are modelled by `mapLookup`, `mapSet` and `evict` below.
-/

namespace WaDupBot

/-! ## Calendar arithmetic (models the civil-date part of JS `Date`)

`civilFromDays` and `daysFromCivil` are the standard proleptic-Gregorian
conversions between a day count relative to 1970-01-01 and a calendar
date (year, month, day).  They model, respectively, the date fields JS
produces for an instant and the day count JS computes from date fields.
Note that `/` and `%` on `Int` are Euclidean, which for the positive
literal divisors used here coincides with floor division, matching JS.
-/

def msPerDay : Int := 86400000

def msPerHour : Int := 3600000

def msPerMinute : Int := 60000

def civilFromDays (z0 : Int) : Int × Int × Int :=
  let z := z0 + 719468
  let era := z / 146097
  let doe := z % 146097
  let yoe := (doe - doe / 1460 + doe / 36524 - doe / 146096) / 365
  let y := yoe + era * 400
  let doy := doe - (365 * yoe + yoe / 4 - yoe / 100)
  let mp := (5 * doy + 2) / 153
  let d := doy - (153 * mp + 2) / 5 + 1
  let m := mp + (if mp < 10 then 3 else -9)
  (y + (if m ≤ 2 then 1 else 0), m, d)

def daysFromCivil (y0 m d : Int) : Int :=
  let y := y0 - (if m ≤ 2 then 1 else 0)
  let era := y / 400
  let yoe := y % 400
  let doy := (153 * (m + (if m > 2 then -3 else 9)) + 2) / 5 + d - 1
  let doe := yoe * 365 + yoe / 4 - yoe / 100 + doy
  era * 146097 + doe - 719468

/-! ## String operations used by the bot

`trimStr` models `String.prototype.trim`, `lowerStr` models
`String.prototype.toLowerCase` (character-wise case folding; exact for
the ASCII and Hebrew texts the bot handles), and `jsSplitWs` models
`String.prototype.split(/\s+/)` on an already-trimmed string: on a
nonempty trimmed string it yields the maximal runs of non-whitespace
characters, and on the empty string it yields `[""]`, exactly as the JS
regex split does. -/

def isWsChar (c : Char) : Bool :=
  c == ' ' || c == '\t' || c == '\n' || c == '\r'

def trimStr (s : String) : String :=
  ⟨((s.data.dropWhile isWsChar).reverse.dropWhile isWsChar).reverse⟩

def lowerStr (s : String) : String :=
  ⟨s.data.map Char.toLower⟩

def tokensAux (cur : List Char) : List Char → List (List Char)
  | [] => if cur.isEmpty then [] else [cur.reverse]
  | c :: cs =>
    if isWsChar c then
      if cur.isEmpty then tokensAux [] cs else cur.reverse :: tokensAux [] cs
    else tokensAux (c :: cur) cs

def jsSplitWs (s : String) : List String :=
  if s.data.isEmpty then [""] else (tokensAux [] s.data).map String.mk

/-! ## The history table

A JS `Map` from lowercased message text to the list of occurrence
instants, in insertion order.  `mapLookup` models `Map.get`, `mapSet`
models `Map.set` (update in place keeps the position, a new key is
appended), and `evict` models the shared prune loop: per key, keep the
instants `t` with `cutoff ≤ t` and delete the key when none remain. -/

abbrev HistTable := List (String × List Int)

def mapLookup (h : HistTable) (k : String) : Option (List Int) :=
  (h.find? (fun p => p.1 == k)).map Prod.snd

def mapSet (h : HistTable) (k : String) (v : List Int) : HistTable :=
  if h.any (fun p => p.1 == k) then
    h.map (fun p => if p.1 == k then (k, v) else p)
  else h ++ [(k, v)]

def evict (cutoff : Int) (h : HistTable) : HistTable :=
  (h.map (fun p => (p.1, p.2.filter (fun t => cutoff ≤ t)))).filter
    (fun p => !p.2.isEmpty)

/-! ## Time-of-day rendering

`fmtHM` models `Date.prototype.toLocaleTimeString` with the options
`hour: 2-digit, minute: 2-digit, hour12: false` in a zone given as a
fixed UTC offset `zOff` (milliseconds): the wall-clock `HH:MM` of the
instant in that zone. -/

def pad2 (n : Int) : String :=
  ⟨[Char.ofNat (48 + (n / 10 % 10).toNat), Char.ofNat (48 + (n % 10).toNat)]⟩

def fmtHM (zOff t : Int) : String :=
  let lt := (t + zOff) % msPerDay
  pad2 (lt / msPerHour) ++ ":" ++ pad2 (lt % msPerHour / msPerMinute)

/-! ## Reply formatting

`buildReply` embeds `buildReply` of `unnamed/part_000` (ascending sort,
`", "` separator); `buildReplyBot` embeds `buildReply` of `bot.js`,
whose comparator `(a, b) => b - a` sorts descending and whose separator
is `" וב"`.  JS `Array.prototype.sort` with a numeric comparator is a
stable sort; on integer keys its result is determined by the ordering
alone, so `List.insertionSort` with the corresponding relation is an
exact model. -/

def replyTemplateP (msg times : String) : String :=
  "⚠️ ההודעה \"" ++ msg ++ "\" הופיעה היום גם בשעות: " ++ times

def buildReply (zOff : Int) (msg : String) (times : List Int) : String :=
  replyTemplateP msg
    (String.intercalate ", " ((times.insertionSort (· ≤ ·)).map (fmtHM zOff)))

def replyTemplateB (msg times : String) : String :=
  "ההודעה <" ++ msg ++ "> הופיעה ביממה האחרונה בשעות " ++ times ++ " (ILT)"

def buildReplyBot (zOff : Int) (msg : String) (times : List Int) : String :=
  replyTemplateB msg
    (String.intercalate " וב" ((times.insertionSort (· ≥ ·)).map (fmtHM zOff)))

/-- Follows the wording of the spec for reply formatting (ascending
chronological order), combined with the `bot.js` template and separator;
stated only to compare with what `bot.js` actually does. -/
def buildReplyBotSpec (zOff : Int) (msg : String) (times : List Int) : String :=
  replyTemplateB msg
    (String.intercalate " וב" ((times.insertionSort (· ≤ ·)).map (fmtHM zOff)))

/-! ## Day-boundary computation

`getIsraelMidnight` embeds the function of that name from
`unnamed/part_000` and `backup/bot.js`: it takes the calendar date of
`now` in the Israel zone (via `toLocaleDateString` with
`timeZone: Asia/Jerusalem`, modelled by a fixed offset `izOff`), then
builds midnight of that date with the zone-less constructor
`new Date(y, m - 1, d, 0, 0, 0, 0)`, which works in the zone of the
process, modelled by the offset `procOff`.  `dayBoundary` follows the
wording of the spec contract: midnight of the same date taken in the
configured zone itself. -/

def localCivil (zOff t : Int) : Int × Int × Int :=
  civilFromDays ((t + zOff) / msPerDay)

def getIsraelMidnight (izOff procOff now : Int) : Int :=
  let c := localCivil izOff now
  daysFromCivil c.1 c.2.1 c.2.2 * msPerDay - procOff

def dayBoundary (zOff now : Int) : Int :=
  let c := localCivil zOff now
  daysFromCivil c.1 c.2.1 c.2.2 * msPerDay - zOff

/-! ## The dedup engine of `unnamed/part_000`

One polling-loop iteration that found a fresh text message is modelled
by `step`: the daily-prune check (`rolloverCheck`, embedding the
`nowMid > lastPruneMidnight` guard and `midnightPrune`), then the event
processing (`processEvent`, embedding the `processedIds` guard, the
trim/split/word-count filter, the history lookup, the reply decision
and the append).  `now` is the instant of the current observation
(`new Date()` in the source), `nowMid` the value `getIsraelMidnight`
returned at the start of the iteration. -/

structure BotState where
  history : HistTable
  processedIds : List String
  lastPruneMidnight : Int
deriving DecidableEq

def midnightPrune (cutoff : Int) (s : BotState) : BotState :=
  { history := evict cutoff s.history
    processedIds := []
    lastPruneMidnight := cutoff }

def rolloverCheck (nowMid : Int) (s : BotState) : BotState :=
  if s.lastPruneMidnight < nowMid then midnightPrune nowMid s else s

def processEvent (zOff now : Int) (msgId rawText : String) (s : BotState) :
    BotState × Option String :=
  if s.processedIds.contains msgId then (s, none) else
  let s1 : BotState := { s with processedIds := s.processedIds ++ [msgId] }
  let messageText := trimStr rawText
  let words := (jsSplitWs messageText).filter (fun w => 0 < w.length)
  if words.length = 0 ∨ 3 < words.length ∨ messageText.length = 0 then
    (s1, none)
  else
    let historyKey := lowerStr messageText
    let previousTimestamps := (mapLookup s1.history historyKey).getD []
    let reply : Option String :=
      if previousTimestamps.length ≠ 0 then
        some (buildReply zOff messageText previousTimestamps)
      else none
    let s2 : BotState :=
      { s1 with
        history := mapSet s1.history historyKey (previousTimestamps ++ [now]) }
    (s2, reply)

def step (zOff nowMid now : Int) (msgId rawText : String) (s : BotState) :
    BotState × Option String :=
  processEvent zOff now msgId rawText (rolloverCheck nowMid s)

/-! ## The engine of `bot.js` (rolling-window variant)

`pruneB` embeds `prune`: the cutoff is `Date.now() - DAY_MS` (a rolling
24-hour window, not a midnight boundary), and the `processedIds` cap
deletes every id once the cap is exceeded, because the `excess` counter
in the source is a `const` that is never decremented.  `stepBot` embeds
one polling-loop iteration of `bot.js`; `msgDate` is the instant parsed
from the `data-pre-plain-text` attribute (or `new Date()`), `nowWall`
the wall-clock instant `prune` reads.  Note that `bot.js` splits the
trimmed text without filtering out empty tokens, so an empty text gives
the single token `""` and a word count of 1. -/

def dayMs : Int := 86400000

def maxIds : Nat := 2000

structure BotStateB where
  history : HistTable
  processedIds : List String
deriving DecidableEq

def pruneB (nowWall : Int) (s : BotStateB) : BotStateB :=
  { history := evict (nowWall - dayMs) s.history
    processedIds := if maxIds < s.processedIds.length then [] else s.processedIds }

def stepBot (zOff nowWall : Int) (msgId rawText : String) (msgDate : Int)
    (s : BotStateB) : BotStateB × Option String :=
  if s.processedIds.contains msgId then (s, none) else
  let s1 : BotStateB := { s with processedIds := s.processedIds ++ [msgId] }
  let msgText := trimStr rawText
  let words := jsSplitWs msgText
  if words.length = 0 ∨ 3 < words.length then (s1, none) else
  let s2 : BotStateB := pruneB nowWall s1
  let key := lowerStr msgText
  let prev := (mapLookup s2.history key).getD []
  let s3 : BotStateB :=
    { s2 with history := mapSet s2.history key (prev ++ [msgDate]) }
  let reply : Option String :=
    if prev.length ≠ 0 then some (buildReplyBot zOff msgText prev) else none
  (s3, reply)

/-! ## Persistence

`persist` serializes the table with `JSON.stringify` after converting
every `Date` to `Date.prototype.toISOString`, and loading parses the
JSON object and applies `new Date(isoString)` to every element.  An ISO
8601 UTC string is determined by and determines its numeric fields, so
the serialized form of an instant is modelled by those fields
(`IsoFields`): `toISOFields` embeds `toISOString` (always UTC,
independent of any timezone), `fromISOFields` embeds `new Date(iso)`.
`saveTable` and `loadTable` embed the whole-table conversions built from
`Object.fromEntries` and `Object.entries`. -/

structure IsoFields where
  year : Int
  month : Int
  day : Int
  hour : Int
  minute : Int
  second : Int
  millis : Int
deriving DecidableEq

def toISOFields (t : Int) : IsoFields :=
  let days := t / msPerDay
  let msod := t % msPerDay
  let c := civilFromDays days
  { year := c.1
    month := c.2.1
    day := c.2.2
    hour := msod / msPerHour
    minute := msod % msPerHour / msPerMinute
    second := msod % msPerMinute / 1000
    millis := msod % 1000 }

def fromISOFields (f : IsoFields) : Int :=
  daysFromCivil f.year f.month f.day * msPerDay + f.hour * msPerHour +
    f.minute * msPerMinute + f.second * 1000 + f.millis

def saveTable (h : HistTable) : List (String × List IsoFields) :=
  h.map (fun p => (p.1, p.2.map toISOFields))

def loadTable (raw : List (String × List IsoFields)) : HistTable :=
  raw.map (fun p => (p.1, p.2.map fromISOFields))

/-- A set of 2001 distinct already-seen event ids (single-character
strings), used to drive the `processedIds` cap of `bot.js` over its
`MAX_IDS = 2000` ceiling. -/
def capIds : List String := (List.range 2001).map (fun k => String.mk [Char.ofNat k])

/-! ## Helper lemmas -/

set_option maxHeartbeats 8000000 in
/-- Range of the day-of-year value computed inside `civilFromDays`:
for any day-of-era `doe` in `[0, 146096]` the derived day-of-year lies
in `[0, 365]`.  Proved by case analysis over the 400 possible values of
the year-of-era. -/
theorem doy_range (doe y : Int) (h1 : 0 ≤ doe) (h2 : doe ≤ 146096)
    (hy : y = (doe - doe / 1460 + doe / 36524 - doe / 146096) / 365) :
    0 ≤ doe - (365 * y + y / 4 - y / 100) ∧
      doe - (365 * y + y / 4 - y / 100) ≤ 365 := by
  have hy0 : 0 ≤ y := by omega
  have hy1 : y ≤ 399 := by omega
  interval_cases y <;> omega

set_option maxHeartbeats 1000000 in
/-- The civil-date conversions are mutually inverse: converting a day
count to a calendar date and back is the identity. -/
theorem daysFromCivil_civilFromDays (z : Int) :
    daysFromCivil (civilFromDays z).1 (civilFromDays z).2.1
      (civilFromDays z).2.2 = z := by
  have h1 : 0 ≤ (z + 719468) % 146097 := by omega
  have h2 : (z + 719468) % 146097 ≤ 146096 := by omega
  have hd := doy_range ((z + 719468) % 146097)
    (((z + 719468) % 146097 - (z + 719468) % 146097 / 1460 +
        (z + 719468) % 146097 / 36524 -
        (z + 719468) % 146097 / 146096) / 365) h1 h2 rfl
  have hy2 : 0 ≤ ((z + 719468) % 146097 - (z + 719468) % 146097 / 1460 +
      (z + 719468) % 146097 / 36524 -
      (z + 719468) % 146097 / 146096) / 365 ∧
      ((z + 719468) % 146097 - (z + 719468) % 146097 / 1460 +
        (z + 719468) % 146097 / 36524 -
        (z + 719468) % 146097 / 146096) / 365 ≤ 399 := by omega
  have hka : (((z + 719468) % 146097 - (z + 719468) % 146097 / 1460 +
      (z + 719468) % 146097 / 36524 -
      (z + 719468) % 146097 / 146096) / 365 +
      (z + 719468) / 146097 * 400 + 1 - 1) / 400 = (z + 719468) / 146097 := by
    omega
  have hkb : (((z + 719468) % 146097 - (z + 719468) % 146097 / 1460 +
      (z + 719468) % 146097 / 36524 -
      (z + 719468) % 146097 / 146096) / 365 +
      (z + 719468) / 146097 * 400 + 1 - 1) % 400 =
      ((z + 719468) % 146097 - (z + 719468) % 146097 / 1460 +
      (z + 719468) % 146097 / 36524 -
      (z + 719468) % 146097 / 146096) / 365 := by
    omega
  have hkc : (((z + 719468) % 146097 - (z + 719468) % 146097 / 1460 +
      (z + 719468) % 146097 / 36524 -
      (z + 719468) % 146097 / 146096) / 365 +
      (z + 719468) / 146097 * 400 + 0 - 0) / 400 = (z + 719468) / 146097 := by
    omega
  have hkd : (((z + 719468) % 146097 - (z + 719468) % 146097 / 1460 +
      (z + 719468) % 146097 / 36524 -
      (z + 719468) % 146097 / 146096) / 365 +
      (z + 719468) / 146097 * 400 + 0 - 0) % 400 =
      ((z + 719468) % 146097 - (z + 719468) % 146097 / 1460 +
      (z + 719468) % 146097 / 36524 -
      (z + 719468) % 146097 / 146096) / 365 := by
    omega
  unfold civilFromDays daysFromCivil
  simp only []
  split_ifs <;>
    (try simp only [add_neg_cancel_right, neg_add_cancel_right]) <;>
    (try rw [hka]) <;> (try rw [hkb]) <;> (try rw [hkc]) <;> (try rw [hkd]) <;>
    omega

theorem mapLookup_cons (p : String × List Int) (rest : HistTable) (k : String) :
    mapLookup (p :: rest) k =
      if p.1 == k then some p.2 else mapLookup rest k := by
  by_cases hp : p.1 == k
  · simp [mapLookup, List.find?_cons_of_pos, hp]
  · simp [mapLookup, List.find?_cons_of_neg, hp]

theorem lookup_replace (l : HistTable) (k : String) (v : List Int)
    (hmem : l.any (fun p => p.1 == k) = true) :
    mapLookup (l.map (fun p => if p.1 == k then (k, v) else p)) k = some v := by
  induction l with
  | nil => simp at hmem
  | cons p rest ih =>
    by_cases hp : p.1 == k
    · rw [List.map_cons, if_pos hp, mapLookup_cons]
      simp
    · rw [List.map_cons, if_neg hp, mapLookup_cons, if_neg hp]
      simp only [List.any_cons, hp, Bool.false_or] at hmem
      exact ih hmem

theorem lookup_append_absent (l : HistTable) (k : String) (v : List Int)
    (habs : l.any (fun p => p.1 == k) = false) :
    mapLookup (l ++ [(k, v)]) k = some v := by
  induction l with
  | nil =>
    rw [List.nil_append, mapLookup_cons]
    simp
  | cons p rest ih =>
    simp only [List.any_cons, Bool.or_eq_false_iff] at habs
    rw [List.cons_append, mapLookup_cons]
    simp [habs.1, ih habs.2]

theorem mapLookup_mapSet_self (h : HistTable) (k : String) (v : List Int) :
    mapLookup (mapSet h k v) k = some v := by
  unfold mapSet
  by_cases hmem : h.any (fun p => p.1 == k)
  · rw [if_pos hmem]
    exact lookup_replace h k v hmem
  · rw [if_neg hmem]
    refine lookup_append_absent h k v ?_
    simp only [Bool.not_eq_true] at hmem
    exact hmem

theorem mapLookup_eq_none_of_not_mem (h : HistTable) (k : String)
    (hk : k ∉ h.map Prod.fst) : mapLookup h k = none := by
  induction h with
  | nil => rfl
  | cons p rest ih =>
    simp only [List.map_cons, List.mem_cons, not_or] at hk
    rw [mapLookup_cons]
    have hp : (p.1 == k) = false := by
      simp only [beq_eq_false_iff_ne, ne_eq]
      exact fun he => hk.1 he.symm
    simp [hp, ih hk.2]

theorem mapLookup_evict_none (b : Int) (h : HistTable) (k : String)
    (hnone : mapLookup h k = none) : mapLookup (evict b h) k = none := by
  induction h with
  | nil => rfl
  | cons p rest ih =>
    rw [mapLookup_cons] at hnone
    by_cases hp : p.1 == k
    · simp [hp] at hnone
    · simp only [hp, if_false] at hnone
      simp only [evict, List.map_cons, List.filter_cons]
      by_cases hemp : (p.2.filter (fun t => b ≤ t)).isEmpty
      · simp only [hemp, Bool.not_true, if_false]
        exact ih hnone
      · simp only [hemp, Bool.not_false, if_true]
        rw [mapLookup_cons]
        simp only [hp, if_false]
        exact ih hnone

theorem evict_lookup (b : Int) (h : HistTable) (k : String)
    (hnd : (h.map Prod.fst).Nodup) :
    mapLookup (evict b h) k =
      match mapLookup h k with
      | none => none
      | some ts =>
        if (ts.filter (fun t => b ≤ t)).isEmpty then none
        else some (ts.filter (fun t => b ≤ t)) := by
  induction h with
  | nil => rfl
  | cons p rest ih =>
    simp only [List.map_cons, List.nodup_cons] at hnd
    obtain ⟨hnotin, hndrest⟩ := hnd
    rw [mapLookup_cons]
    by_cases hp : p.1 == k
    · have hk : p.1 = k := by simpa using hp
      simp only [hp, if_true]
      simp only [evict, List.map_cons, List.filter_cons]
      by_cases hemp : (p.2.filter (fun t => b ≤ t)).isEmpty
      · simp only [hemp, Bool.not_true, Bool.false_eq_true, if_false]
        have hrest : mapLookup rest k = none :=
          mapLookup_eq_none_of_not_mem rest k (hk ▸ hnotin)
        have hev := mapLookup_evict_none b rest k hrest
        simp only [evict] at hev
        simp [hev, hemp]
      · simp only [hemp, Bool.not_false, if_true]
        rw [mapLookup_cons]
        simp [hp, hemp]
    · simp only [hp, if_false]
      simp only [evict, List.map_cons, List.filter_cons]
      by_cases hemp : (p.2.filter (fun t => b ≤ t)).isEmpty
      · simp only [hemp, Bool.not_true, Bool.false_eq_true, if_false]
        have := ih hndrest
        simpa [evict] using this
      · simp only [hemp, Bool.not_false, if_true]
        rw [mapLookup_cons]
        simp only [hp, if_false]
        have := ih hndrest
        simpa [evict] using this

theorem step_contains_self (zOff nowMid now : Int) (msgId rawText : String)
    (s : BotState) :
    ((step zOff nowMid now msgId rawText s).1).processedIds.contains msgId = true := by
  unfold step processEvent
  set s' := rolloverCheck nowMid s with hs'
  by_cases hc : s'.processedIds.contains msgId
  · rw [if_pos hc]
    exact hc
  · rw [if_neg (by simpa using hc)]
    dsimp only
    split_ifs <;> simp

theorem processEvent_admitted (zOff now : Int) (msgId rawText : String)
    (s : BotState)
    (hid : s.processedIds.contains msgId = false)
    (hadm : ¬ (((jsSplitWs (trimStr rawText)).filter
        (fun w => 0 < w.length)).length = 0 ∨
      3 < ((jsSplitWs (trimStr rawText)).filter
        (fun w => 0 < w.length)).length ∨
      (trimStr rawText).length = 0)) :
    processEvent zOff now msgId rawText s =
      ({ history := mapSet s.history (lowerStr (trimStr rawText))
            (((mapLookup s.history (lowerStr (trimStr rawText))).getD []) ++ [now])
         processedIds := s.processedIds ++ [msgId]
         lastPruneMidnight := s.lastPruneMidnight },
       if ((mapLookup s.history (lowerStr (trimStr rawText))).getD []).length ≠ 0
       then some (buildReply zOff (trimStr rawText)
         ((mapLookup s.history (lowerStr (trimStr rawText))).getD []))
       else none) := by
  unfold processEvent
  rw [if_neg (by intro hh; rw [hid] at hh; exact Bool.noConfusion hh),
    if_neg hadm]

theorem fromISOFields_toISOFields (t : Int) : fromISOFields (toISOFields t) = t := by
  unfold toISOFields fromISOFields
  dsimp only
  rw [daysFromCivil_civilFromDays]
  unfold msPerDay msPerHour msPerMinute
  omega

theorem capIds_no_zz : capIds.contains "zz" = false := by
  by_contra hc
  have hm : "zz" ∈ capIds := by
    simp only [Bool.not_eq_false] at hc
    simpa using hc
  rw [capIds] at hm
  simp only [List.mem_map, List.mem_range] at hm
  obtain ⟨k, _, he⟩ := hm
  have hd : ([Char.ofNat k]).length = ("zz".data).length :=
    congrArg (fun s => s.data.length) he
  have h2 : ("zz".data).length = 2 := by decide
  have h1 : ([Char.ofNat k]).length = 1 := rfl
  omega

theorem capIds_cap : maxIds < (capIds ++ ["zz"]).length := by
  simp [capIds, maxIds]

theorem stepBot_cap_clears (zOff nowWall : Int) (msgId rawText : String)
    (msgDate : Int) (hist : HistTable) (ids : List String)
    (hno : ids.contains msgId = false)
    (hlen : maxIds < (ids ++ [msgId]).length)
    (hadm : ¬ ((jsSplitWs (trimStr rawText)).length = 0 ∨
      3 < (jsSplitWs (trimStr rawText)).length)) :
    stepBot zOff nowWall msgId rawText msgDate ⟨hist, ids⟩ =
      (⟨mapSet (evict (nowWall - dayMs) hist) (lowerStr (trimStr rawText))
          (((mapLookup (evict (nowWall - dayMs) hist)
            (lowerStr (trimStr rawText))).getD []) ++ [msgDate]), []⟩,
        if ((mapLookup (evict (nowWall - dayMs) hist)
            (lowerStr (trimStr rawText))).getD []).length ≠ 0
        then some (buildReplyBot zOff (trimStr rawText)
          ((mapLookup (evict (nowWall - dayMs) hist)
            (lowerStr (trimStr rawText))).getD []))
        else none) := by
  unfold stepBot
  rw [if_neg (by intro hh; rw [hno] at hh; exact Bool.noConfusion hh)]
  dsimp only
  rw [if_neg hadm]
  unfold pruneB
  rw [if_pos hlen]

/-! ## The claims -/

/-- Claim C1 (amended): the midnight-anchored eviction (`midnightPrune` of `unnamed/part_000` and `backup/bot.js`, whose table update is `evict`) removes, for every key, exactly the instants strictly before the given boundary and deletes a key left with no instants.  The `prune` of `bot.js` instead uses a rolling 24-hour cutoff; see the counterexample. -/
theorem evict_exact_boundary (b : Int) (h : HistTable) (k : String)
    (hnd : (h.map Prod.fst).Nodup) :
    mapLookup (evict b h) k =
      match mapLookup h k with
      | none => none
      | some ts =>
        if (ts.filter (fun t => b ≤ t)).isEmpty then none
        else some (ts.filter (fun t => b ≤ t)) :=
  evict_lookup b h k hnd

/-- Witness for C1: a concrete table where eviction at boundary 5 keeps exactly the instant 7 out of [3, 7] and deletes the other key. -/
theorem evict_exact_boundary_witness :
    mapLookup (evict 5 [("hi", [3, 7]), ("bye", [1])]) "hi" = some [7] :=
  (evict_exact_boundary 5 [("hi", [3, 7]), ("bye", [1])] "hi" (by decide)).trans
    (by decide)

/-- Counterexample for C1 as stated: the eviction of `bot.js` (`prune`, embedded as `pruneB`) retains an observation from 23:00 Israel time of the previous day when run at 10:00 Israel time, although that instant is strictly before the start-of-day boundary: its window is a rolling 24 hours ending at the current instant, not midnight-anchored. -/
theorem prune_rolling_window_counterexample :
    (pruneB (daysFromCivil 2024 1 10 * msPerDay + 8 * msPerHour)
        ⟨[("hi", [daysFromCivil 2024 1 10 * msPerDay - 3 * msPerHour])], []⟩).history =
      [("hi", [daysFromCivil 2024 1 10 * msPerDay - 3 * msPerHour])] ∧
    daysFromCivil 2024 1 10 * msPerDay - 3 * msPerHour <
      dayBoundary 7200000 (daysFromCivil 2024 1 10 * msPerDay + 8 * msPerHour) := by
  decide

/-- Claim C2: for a qualifying text (1 to 3 words after normalization), observed again with no eviction in between (no rollover, fresh event id), the engine of `unnamed/part_000` replies with exactly the prior occurrence list as it stood before the current append, and only then appends the current instant. -/
theorem second_observation_reply (zOff nowMid now : Int) (msgId rawText : String)
    (s : BotState) (prior : List Int)
    (hroll : ¬ s.lastPruneMidnight < nowMid)
    (hid : s.processedIds.contains msgId = false)
    (hadm : ¬ (((jsSplitWs (trimStr rawText)).filter
        (fun w => 0 < w.length)).length = 0 ∨
      3 < ((jsSplitWs (trimStr rawText)).filter
        (fun w => 0 < w.length)).length ∨
      (trimStr rawText).length = 0))
    (hprior : prior = (mapLookup s.history (lowerStr (trimStr rawText))).getD [])
    (hne : prior ≠ []) :
    (step zOff nowMid now msgId rawText s).2 =
      some (buildReply zOff (trimStr rawText) prior) ∧
    mapLookup (step zOff nowMid now msgId rawText s).1.history
      (lowerStr (trimStr rawText)) = some (prior ++ [now]) := by
  unfold step rolloverCheck
  rw [if_neg hroll,
    processEvent_admitted zOff now msgId rawText s hid hadm, ← hprior]
  dsimp only
  constructor
  · rw [if_pos (by simpa [List.length_eq_zero] using hne)]
  · exact mapLookup_mapSet_self s.history (lowerStr (trimStr rawText))
      (prior ++ [now])

/-- Witness for C2: a second observation of "Hi" at instant 900 replies with the single prior instant 500 and the history becomes [500, 900]. -/
theorem second_observation_reply_witness :
    (step 7200000 0 900 "idB" "Hi" ⟨[("hi", [500])], ["idA"], 0⟩).2 =
      some (buildReply 7200000 (trimStr "Hi") [500]) ∧
    mapLookup (step 7200000 0 900 "idB" "Hi" ⟨[("hi", [500])], ["idA"], 0⟩).1.history
      (lowerStr (trimStr "Hi")) = some ([500] ++ [900]) :=
  second_observation_reply 7200000 0 900 "idB" "Hi" ⟨[("hi", [500])], ["idA"], 0⟩
    [500] (by decide) (by decide) (by decide) (by decide) (by decide)

/-- Claim C3 evaluation: `bot.js` splits the trimmed text without removing empty tokens, so a text that is empty after trimming gets word count 1 (never 0), is admitted, creates a history entry under the key "", and a repeat even draws a reply; the `words.length === 0` rejection branch of `bot.js` is unreachable.  (`unnamed/part_000` filters out empty tokens and rejects such texts, as the claim states.) -/
theorem bot_empty_text_admitted :
    (jsSplitWs (trimStr "")).length = 1 ∧
    (stepBot 0 90000000 "i1" "" 90000000 ⟨[], []⟩).1.history =
      [("", [90000000])] ∧
    (stepBot 0 90060000 "i2" " " 90060000
        (stepBot 0 90000000 "i1" "" 90000000 ⟨[], []⟩).1).2 =
      some (buildReplyBot 0 "" [90000000]) := by
  decide

/-- Claim C4 evaluation: at 2024-01-10T01:00Z with the process zone at UTC, `getIsraelMidnight` returns 2024-01-10T00:00 in the process zone (UTC midnight of the Israel calendar date), not the Israel midnight 2024-01-09T22:00Z that the `dayBoundary` contract requires: the function builds midnight with the zone-less `Date` constructor, which works in the process zone rather than in `Asia/Jerusalem`. -/
theorem israelMidnight_process_zone_bug :
    getIsraelMidnight 7200000 0 (daysFromCivil 2024 1 10 * msPerDay + msPerHour) =
      daysFromCivil 2024 1 10 * msPerDay ∧
    dayBoundary 7200000 (daysFromCivil 2024 1 10 * msPerDay + msPerHour) =
      daysFromCivil 2024 1 10 * msPerDay - 7200000 ∧
    getIsraelMidnight 7200000 0 (daysFromCivil 2024 1 10 * msPerDay + msPerHour) ≠
      dayBoundary 7200000 (daysFromCivil 2024 1 10 * msPerDay + msPerHour) := by
  decide

/-- Counterexample for C5 as stated: the qualifying texts "a  b" and "a b" differ only in internal whitespace, yet map to different history keys (the key is the lowercased text, with no whitespace collapsing), so the second observation is not detected as a duplicate and draws no reply. -/
theorem whitespace_key_counterexample :
    lowerStr (trimStr "a  b") ≠ lowerStr (trimStr "a b") ∧
    ((jsSplitWs (trimStr "a  b")).filter (fun w => 0 < w.length)).length = 2 ∧
    ((jsSplitWs (trimStr "a b")).filter (fun w => 0 < w.length)).length = 2 ∧
    (step 0 0 20 "e2" "a b" (step 0 0 10 "e1" "a  b" ⟨[], [], 0⟩).1).2 = none := by
  decide

/-- Claim C5 (amended): key normalization is a congruence with respect to letter case only: two qualifying texts equal after character-wise case folding map to the same history key, and the second observation of the case variant is detected as a duplicate of the first. -/
theorem case_fold_key_congruence (zOff nowMid now1 now2 : Int)
    (id1 id2 s t : String) (st : BotState)
    (hcase : (trimStr s).data.map Char.toLower =
      (trimStr t).data.map Char.toLower)
    (hroll : ¬ st.lastPruneMidnight < nowMid)
    (hid1 : st.processedIds.contains id1 = false)
    (hadmS : ¬ (((jsSplitWs (trimStr s)).filter
        (fun w => 0 < w.length)).length = 0 ∨
      3 < ((jsSplitWs (trimStr s)).filter (fun w => 0 < w.length)).length ∨
      (trimStr s).length = 0))
    (hadmT : ¬ (((jsSplitWs (trimStr t)).filter
        (fun w => 0 < w.length)).length = 0 ∨
      3 < ((jsSplitWs (trimStr t)).filter (fun w => 0 < w.length)).length ∨
      (trimStr t).length = 0))
    (hid2 : (step zOff nowMid now1 id1 s st).1.processedIds.contains id2 = false) :
    lowerStr (trimStr s) = lowerStr (trimStr t) ∧
    (step zOff nowMid now2 id2 t
      (step zOff nowMid now1 id1 s st).1).2.isSome = true := by
  have hkey : lowerStr (trimStr s) = lowerStr (trimStr t) :=
    congrArg String.mk hcase
  refine ⟨hkey, ?_⟩
  have h1 : step zOff nowMid now1 id1 s st =
      ({ history := mapSet st.history (lowerStr (trimStr s))
            (((mapLookup st.history (lowerStr (trimStr s))).getD []) ++ [now1])
         processedIds := st.processedIds ++ [id1]
         lastPruneMidnight := st.lastPruneMidnight },
       if ((mapLookup st.history (lowerStr (trimStr s))).getD []).length ≠ 0
       then some (buildReply zOff (trimStr s)
         ((mapLookup st.history (lowerStr (trimStr s))).getD []))
       else none) := by
    unfold step rolloverCheck
    rw [if_neg hroll]
    exact processEvent_admitted zOff now1 id1 s st hid1 hadmS
  rw [h1] at hid2 ⊢
  dsimp only at hid2 ⊢
  unfold step rolloverCheck
  rw [if_neg (by dsimp only; exact hroll),
    processEvent_admitted zOff now2 id2 t _ hid2 hadmT]
  dsimp only
  rw [← hkey, mapLookup_mapSet_self]
  simp

/-- Witness for C5: observing "Hi" and then "hI" on the same day with fresh ids produces equal keys and a duplicate reply. -/
theorem case_fold_key_congruence_witness :
    lowerStr (trimStr "Hi") = lowerStr (trimStr "hI") ∧
    (step 0 0 20 "e2" "hI" (step 0 0 10 "e1" "Hi" ⟨[], [], 0⟩).1).2.isSome = true :=
  case_fold_key_congruence 0 0 10 20 "e1" "e2" "Hi" "hI" ⟨[], [], 0⟩
    (by decide) (by decide) (by decide) (by decide) (by decide) (by decide)

/-- Counterexample for C6 as stated: `buildReply` of `bot.js` sorts the prior timestamps descending (comparator `(a, b) => b - a`), so with priors at 00:00 and 01:00 the reply lists "01:00 וב00:00", not the ascending order the claim requires. -/
theorem buildReplyBot_descending :
    buildReplyBot 0 "hi" [0, 3600000] ≠ buildReplyBotSpec 0 "hi" [0, 3600000] ∧
    buildReplyBot 0 "hi" [0, 3600000] = replyTemplateB "hi" "01:00 וב00:00" := by
  decide

/-- Claim C6 (amended): `buildReply` of `unnamed/part_000` and `backup/bot.js` renders a list that is a permutation of the prior timestamps sorted ascending, each as zone-local HH:MM, joined with ", " into the fixed template naming the original text; it is a pure function of its arguments by construction. -/
theorem buildReply_ascending_times (zOff : Int) (msg : String) (times : List Int) :
    ∃ sorted : List Int, sorted.Perm times ∧ sorted.Sorted (· ≤ ·) ∧
      buildReply zOff msg times =
        replyTemplateP msg (String.intercalate ", " (sorted.map (fmtHM zOff))) :=
  ⟨times.insertionSort (· ≤ ·), List.perm_insertionSort _ _,
    List.sorted_insertionSort _ _, rfl⟩

/-- Claim C7 (amended): in the engine of `unnamed/part_000`, whose set of seen event ids is never trimmed within a day, delivering an event id it has already processed, with no day rollover in between, changes nothing: the state is returned unchanged and no reply is produced, regardless of the text of either delivery.  The `bot.js` variant does not have this guarantee across its id cap; see the counterexample. -/
theorem duplicate_event_id_ignored (zOff nowMid1 now1 nowMid2 now2 : Int)
    (msgId t1 t2 : String) (s : BotState)
    (hsame : ¬ (step zOff nowMid1 now1 msgId t1 s).1.lastPruneMidnight < nowMid2) :
    step zOff nowMid2 now2 msgId t2 (step zOff nowMid1 now1 msgId t1 s).1 =
      ((step zOff nowMid1 now1 msgId t1 s).1, none) := by
  have hc := step_contains_self zOff nowMid1 now1 msgId t1 s
  set s1 := (step zOff nowMid1 now1 msgId t1 s).1 with hs1
  unfold step rolloverCheck processEvent
  rw [if_neg hsame, if_pos hc]

/-- Witness for C7: redelivering id "e" on the same day leaves the state unchanged and produces no reply. -/
theorem duplicate_event_id_ignored_witness :
    step 0 0 20 "e" "yo" (step 0 0 10 "e" "hi" ⟨[], [], 0⟩).1 =
      ((step 0 0 10 "e" "hi" ⟨[], [], 0⟩).1, none) :=
  duplicate_event_id_ignored 0 0 10 0 20 "e" "hi" "yo" ⟨[], [], 0⟩ (by decide)

/-- Counterexample for C7 as stated: in `bot.js`, once more than 2000 event ids have been seen, `prune` clears the whole `processedIds` set (its `const excess` counter is never decremented, so the loop deletes every id), clearing even the id of the event being processed; the very next delivery of that same id is then processed again, appending a second occurrence and emitting a second reply. -/
theorem seen_filter_cap_counterexample :
    (stepBot 0 90000000 "zz" "hi" 80000001 ⟨[("hi", [80000000])], capIds⟩).2 =
      some (buildReplyBot 0 "hi" [80000000]) ∧
    (stepBot 0 90000000 "zz" "hi" 80000002
        (stepBot 0 90000000 "zz" "hi" 80000001
          ⟨[("hi", [80000000])], capIds⟩).1).2 =
      some (buildReplyBot 0 "hi" [80000000, 80000001]) ∧
    mapLookup (stepBot 0 90000000 "zz" "hi" 80000002
        (stepBot 0 90000000 "zz" "hi" 80000001
          ⟨[("hi", [80000000])], capIds⟩).1).1.history "hi" =
      some [80000000, 80000001, 80000002] := by
  rw [stepBot_cap_clears 0 90000000 "zz" "hi" 80000001 [("hi", [80000000])]
    capIds capIds_no_zz capIds_cap (by decide)]
  refine ⟨by decide, ?_, ?_⟩ <;> decide

/-- Claim C8: when the current day boundary is strictly after the recorded last-prune boundary, the rollover check of `unnamed/part_000` evicts the history at the new boundary (characterized per key), clears the set of seen event ids entirely, and records the new boundary. -/
theorem rollover_evicts_and_clears (nowMid : Int) (s : BotState) (k : String)
    (h : s.lastPruneMidnight < nowMid)
    (hnd : (s.history.map Prod.fst).Nodup) :
    (rolloverCheck nowMid s).processedIds = [] ∧
    (rolloverCheck nowMid s).lastPruneMidnight = nowMid ∧
    mapLookup (rolloverCheck nowMid s).history k =
      (match mapLookup s.history k with
       | none => none
       | some ts =>
         if (ts.filter (fun t => nowMid ≤ t)).isEmpty then none
         else some (ts.filter (fun t => nowMid ≤ t))) := by
  unfold rolloverCheck
  rw [if_pos h]
  exact ⟨rfl, rfl, evict_lookup nowMid s.history k hnd⟩

/-- Witness for C8: rolling over to boundary 50 on a table with instants [5, 100] keeps exactly [100], clears the ids and records 50. -/
theorem rollover_evicts_and_clears_witness :
    (rolloverCheck 50 ⟨[("hi", [5, 100])], ["x"], 0⟩).processedIds = [] ∧
    (rolloverCheck 50 ⟨[("hi", [5, 100])], ["x"], 0⟩).lastPruneMidnight = 50 ∧
    mapLookup (rolloverCheck 50 ⟨[("hi", [5, 100])], ["x"], 0⟩).history "hi" =
      (match mapLookup [("hi", [5, 100])] "hi" with
       | none => none
       | some ts =>
         if (ts.filter (fun t => (50:Int) ≤ t)).isEmpty then none
         else some (ts.filter (fun t => (50:Int) ≤ t))) :=
  rollover_evicts_and_clears 50 ⟨[("hi", [5, 100])], ["x"], 0⟩ "hi"
    (by decide) (by decide)

/-- Claim C9: eviction is idempotent on the history table: running it twice with the same boundary and no append in between leaves the table exactly as after one run. -/
theorem evict_idempotent (b : Int) (h : HistTable) :
    evict b (evict b h) = evict b h := by
  induction h with
  | nil => rfl
  | cons p rest ih =>
    simp only [evict, List.map_cons, List.filter_cons]
    by_cases hemp : (p.2.filter (fun t => b ≤ t)).isEmpty
    · simp only [hemp, Bool.not_true, Bool.false_eq_true, if_false]
      simpa [evict] using ih
    · have hff : (p.2.filter (fun t => b ≤ t)).filter (fun t => b ≤ t) =
          p.2.filter (fun t => b ≤ t) := by
        rw [List.filter_filter]
        simp
      simp only [hemp, Bool.not_false, if_true]
      simp only [evict, List.map_cons, List.filter_cons, hff]
      simp only [hemp, Bool.not_false, if_true, List.cons.injEq, true_and]
      simpa [evict] using ih

/-- Claim C10: persistence round-trips: loading the serialized form produced by saving any history table, including tables with several keys and multi-entry occurrence lists, returns the table itself; the serialized instants are UTC ISO fields, independent of any timezone. -/
theorem load_save_roundtrip (h : HistTable) : loadTable (saveTable h) = h := by
  unfold loadTable saveTable
  rw [List.map_map]
  have hcomp : ((fun p : String × List IsoFields => (p.1, p.2.map fromISOFields)) ∘
      fun p : String × List Int => (p.1, p.2.map toISOFields)) = id := by
    funext p
    simp [List.map_map, Function.comp_def, fromISOFields_toISOFields]
  rw [hcomp, List.map_id]

end WaDupBot
